import Mathlib

/-!
Verification of the task-simulator core against its C++ sources.

The definitions below are shallow embeddings of the repository's code:
`simcpp20::container` from `src/include/container.hpp`, the task process,
simulator constructor and statistics pass from `src/unnamed/part_002`
(the index-based `simulator.cpp`), and the CSV header validation and
dependency validation from `src/src/simulator.cpp`.  C++ `uint64_t`
quantities are modelled as `Nat` (all mutations are guarded so no wrap
occurs), C++ `int`/`int64_t` as `Int`, and a thrown exception as
`Except.error` carrying the error kind of spec section 7.
-/

namespace TaskSim

/-- Error kinds of spec section 7 (the C++ code throws exceptions whose
message identifies the kind; only the kind is modelled). -/
inductive SimError where
  | ConfigError
  | ValidationError
  | UnknownHost
  | InvalidAmount
  | UnknownLink
deriving DecidableEq, Repr

/-- A pending `get` request of `simcpp20::container` (`container.hpp`,
struct `GetRequest`): the requested amount plus the aborted flag of the
stored event (the only part of the event the drain loop inspects). -/
structure GetRequest where
  amount : Nat
  aborted : Bool
deriving DecidableEq, Repr

/-- A pending `put` request of `simcpp20::container` (`container.hpp`,
struct `PutRequest`). -/
structure PutRequest where
  amount : Nat
  aborted : Bool
deriving DecidableEq, Repr

/-- State of a `simcpp20::container` (`container.hpp`): capacity, current
level, and the FIFO queues of pending get and put requests. -/
structure Container where
  capacity : Nat
  level : Nat
  get_queue : List GetRequest
  put_queue : List PutRequest
deriving DecidableEq, Repr

/-- `container::process_get_queue` (`container.hpp` lines 118-134) as a
function of the current level and the queue.  Returns the new level, the
list of requests whose events were triggered (in grant order), and the
remaining queue.  Aborted entries at the front are popped without a grant;
a non-aborted head that cannot be satisfied stops the loop. -/
def process_get_queue (level : Nat) : List GetRequest → Nat × List GetRequest × List GetRequest
  | [] => (level, [], [])
  | req :: rest =>
    if req.aborted then
      process_get_queue level rest
    else if req.amount ≤ level then
      let r := process_get_queue (level - req.amount) rest
      (r.1, req :: r.2.1, r.2.2)
    else
      (level, [], req :: rest)

/-- `container::process_put_queue` (`container.hpp` lines 137-153). -/
def process_put_queue (capacity level : Nat) : List PutRequest → Nat × List PutRequest × List PutRequest
  | [] => (level, [], [])
  | req :: rest =>
    if req.aborted then
      process_put_queue capacity level rest
    else if level + req.amount ≤ capacity then
      let r := process_put_queue capacity (level + req.amount) rest
      (r.1, req :: r.2.1, r.2.2)
    else
      (level, [], req :: rest)

/-- `container::get` (`container.hpp` lines 41-59).  The returned `Bool`
records whether the caller's event was triggered immediately (`true`) or
the request was enqueued (`false`); `amount > capacity` throws, modelled
as `Except.error .InvalidAmount` with the state untouched. -/
def Container.get (c : Container) (amount : Nat) : Except SimError (Container × Bool) :=
  if amount > c.capacity then
    .error .InvalidAmount
  else if c.level ≥ amount then
    let r := process_put_queue c.capacity (c.level - amount) c.put_queue
    .ok ({ c with level := r.1, put_queue := r.2.2 }, true)
  else
    .ok ({ c with get_queue := c.get_queue ++ [⟨amount, false⟩] }, false)

/-- `container::put` (`container.hpp` lines 67-85). -/
def Container.put (c : Container) (amount : Nat) : Except SimError (Container × Bool) :=
  if amount > c.capacity then
    .error .InvalidAmount
  else if c.level + amount ≤ c.capacity then
    let r := process_get_queue (c.level + amount) c.get_queue
    .ok ({ c with level := r.1, get_queue := r.2.2 }, true)
  else
    .ok ({ c with put_queue := c.put_queue ++ [⟨amount, false⟩] }, false)

/-- An operation performed on a container by some client. -/
inductive ContainerOp where
  | get (n : Nat)
  | put (n : Nat)
deriving DecidableEq, Repr

/-- Apply one operation; a thrown `InvalidAmount` leaves the container
state unchanged (the C++ `throw` happens before any mutation). -/
def Container.apply (c : Container) : ContainerOp → Container
  | .get n => match c.get n with
    | .ok r => r.1
    | .error _ => c
  | .put n => match c.put n with
    | .ok r => r.1
    | .error _ => c

/-- Apply a sequence of operations in order. -/
def Container.applyAll (c : Container) (ops : List ContainerOp) : Container :=
  ops.foldl Container.apply c

/-- The container invariant of spec section 8: the level never exceeds the
capacity (levels are `Nat`, so `0 ≤ level` is inherent). -/
def Container.inv (c : Container) : Prop :=
  c.level ≤ c.capacity

instance (c : Container) : Decidable c.inv := by
  unfold Container.inv; infer_instance

/-- `models::Task` (`src/include/models.h`): the task record after the
loader and the simulator constructor have filled every field. -/
structure Task where
  name : String
  host : String
  initial_sleep_time : Int
  run_time : Int
  ram : Int
  network_time : Int
  dependencies : List String
  dependency_indices : List Nat
  index : Nat
  host_index : Nat
deriving DecidableEq, Repr, Inhabited

/-- `simulator::Host` (`src/unnamed/part_002` constructor): the RAM
container is created with capacity and initial level both equal to
`ram_capacity`.  The CPU seizable resource is owned by the host as well
but none of the claims below depend on its internals, so only its core
count is kept. -/
structure Host where
  name : String
  ram : Container
  cpu_cores : Int
  ram_capacity : Int
deriving DecidableEq, Repr

/-- The `Host` constructor (`src/unnamed/part_002` lines 10-19):
`ram(sim, ram_capacity, ram_capacity)`. -/
def Host.init (name : String) (cpu_cores ram_capacity : Int) : Host :=
  { name := name
    ram := { capacity := ram_capacity.toNat, level := ram_capacity.toNat
             get_queue := [], put_queue := [] }
    cpu_cores := cpu_cores
    ram_capacity := ram_capacity }

/-- One observable step of the `task_process` coroutine
(`src/unnamed/part_002` lines 49-137), in program order: timeouts,
awaiting a dependency's completion signal, network-link request and
release, the RAM get/put, the CPU request/release, and triggering the
task's own completion signal. -/
inductive Action where
  | timeout (t : Int)
  | await_dep (d : Nat)
  | link_request (src dst : Nat)
  | link_release (src dst : Nat)
  | ram_get (n : Int)
  | cpu_request
  | cpu_release
  | ram_put (n : Int)
  | trigger (i : Nat)
deriving DecidableEq, Repr

/-- The network-transfer steps the loop body of `task_process` performs
for one dependency (`src/unnamed/part_002` lines 75-96): only when the
dependency lives on another host and has positive `network_time` does the
process request the link, wait `network_time`, and release the link. -/
def dep_transfer_actions (task dep : Task) : List Action :=
  if dep.host_index ≠ task.host_index then
    if dep.network_time > 0 then
      [Action.link_request dep.host_index task.host_index,
       Action.timeout dep.network_time,
       Action.link_release dep.host_index task.host_index]
    else []
  else []

/-- The dependency loop of `task_process` (`src/unnamed/part_002` lines
66-97): for each dependency index in order, await its completion signal
and then immediately perform that dependency's network transfer. -/
def dep_phase (task : Task) (tasks : List Task) : List Nat → List Action
  | [] => []
  | d :: rest =>
    Action.await_dep d :: dep_transfer_actions task (tasks.getD d default)
      ++ dep_phase task tasks rest

/-- The full action trace of `task_process` (`src/unnamed/part_002` lines
49-137): optional initial sleep, the dependency loop, then RAM get, CPU
request, execution, CPU release, RAM put, and the completion trigger. -/
def task_process_trace (task : Task) (task_index : Nat) (tasks : List Task) : List Action :=
  (if task.initial_sleep_time > 0 then [Action.timeout task.initial_sleep_time] else [])
    ++ dep_phase task tasks task.dependency_indices
    ++ [Action.ram_get task.ram, Action.cpu_request, Action.timeout task.run_time,
        Action.cpu_release, Action.ram_put task.ram, Action.trigger task_index]

/-- The dependency handling as the spec words it (section 4.7 steps 2 and
3, quoted by claim C1): first await the completion signal of every
dependency in declaration order, and only then perform the network
transfers, sequentially in dependency order.  This definition follows the
spec's words, for comparison with `dep_phase` taken from the code. -/
def spec_dep_phase (task : Task) (tasks : List Task) (deps : List Nat) : List Action :=
  deps.map Action.await_dep
    ++ deps.flatMap (fun d => dep_transfer_actions task (tasks.getD d default))

/-- The `task_name_to_index` map of the `TaskSimulator` constructor
(`src/unnamed/part_002` lines 145-148): `map[task.name] = task.index` in
task order.  An `unordered_map` insert overwrites, so a later task with
the same name wins; the association list is built most-recent-first so
that `List.lookup` returns the last write. -/
def task_name_to_index (tasks : List Task) : List (String × Nat) :=
  tasks.foldl (fun m t => (t.name, t.index) :: m) []

/-- The dependency-resolution loop of the `TaskSimulator` constructor
(`src/unnamed/part_002` lines 150-157): each dependency name found in the
map contributes its index; a name that is not found is skipped with no
error (there is no `else` branch). -/
def resolve_dependency_indices (m : List (String × Nat)) (deps : List String) : List Nat :=
  deps.filterMap (fun dep_name => m.lookup dep_name)

/-- The host-resolution loop of the `TaskSimulator` constructor
(`src/unnamed/part_002` lines 170-176): each task's host name is looked
up among the constructed hosts; a task whose host is unknown throws
(error kind `UnknownHost`).  `host_ids` is the host-id sequence in the
order hosts were constructed. -/
def resolve_task_hosts (host_ids : List String) : List Task → Except SimError (List Task)
  | [] => .ok []
  | t :: rest =>
    match host_ids.findIdx? (fun h => h = t.host) with
    | some i => (resolve_task_hosts host_ids rest).map (fun ts => { t with host_index := i } :: ts)
    | none => .error .UnknownHost

/-- The statistics block computed by `TaskSimulator::run`
(`src/unnamed/part_002` lines 193-225). -/
structure RunStats where
  total_cpu_work : Int
  total_cpu_cores : Int
  total_cpu_time_available : Int
  cpu_utilization : ℚ
  idle_time : Int
deriving DecidableEq, Repr

/-- `TaskSimulator::run` statistics pass (`src/unnamed/part_002` lines
193-225): the work and core accumulation loops, the available-time
product, the utilization ratio guarded by a zero denominator, and the
idle time.  `sim_time` stands for `sim_.now()` after the event queue
drained; the C++ `double` utilization is modelled as an exact rational
(the code multiplies the ratio by 100 to print a percentage). -/
def run_stats (tasks : List Task) (hosts : List Host) (sim_time : Int) : RunStats :=
  let total_cpu_work := tasks.foldl (fun acc t => acc + t.run_time) 0
  let total_cpu_cores := hosts.foldl (fun acc h => acc + h.cpu_cores) 0
  let total_cpu_time_available := total_cpu_cores * sim_time
  { total_cpu_work := total_cpu_work
    total_cpu_cores := total_cpu_cores
    total_cpu_time_available := total_cpu_time_available
    cpu_utilization :=
      if 0 < total_cpu_time_available then
        (total_cpu_work : ℚ) / (total_cpu_time_available : ℚ) * 100
      else 0
    idle_time := total_cpu_time_available - total_cpu_work }

/-- The seven required CSV column names (`src/src/simulator.cpp` lines
325-328, `expected_headers`). -/
def expected_headers : List String :=
  ["TASK_NAME", "TASK_HOST", "TASK_INITIAL_SLEEP_TIME",
   "TASK_RUN_TIME", "TASK_RAM", "TASK_NETWORK_TIME", "TASK_DEPENDENCY"]

/-- The header comparison of `parse_tasks_csv` (`src/src/simulator.cpp`
lines 330-332): the header names are poured into a `std::unordered_set`
and that set is compared with the expected set, i.e. the two name lists
contain each other as sets. -/
def header_set_eq (actual : List String) : Bool :=
  actual.all (fun h => expected_headers.contains h)
    && expected_headers.all (fun h => actual.contains h)

/-- The header-validation step of `parse_tasks_csv`
(`src/src/simulator.cpp` lines 317-367): a header whose name set differs
from the expected set throws (error kind `ConfigError`); otherwise
parsing proceeds. -/
def check_header (headers : List String) : Except SimError Unit :=
  if header_set_eq headers then .ok () else .error .ConfigError

/-- The task record as `validate_task_dependencies` and the older CSV
loader see it (`src/src/simulator.cpp`): at most one optional dependency
per task.  Only the fields that function reads are modelled. -/
structure TaskV where
  name : String
  dependency : Option String
deriving DecidableEq, Repr

/-- `task_dict.at(name).dependency` of the cycle DFS
(`src/src/simulator.cpp` lines 426-448): an `unordered_map` insert
overwrites, so for a duplicated name the last task wins. -/
def dep_of (tasks : List TaskV) (n : String) : Option String :=
  match (tasks.reverse).find? (fun t => t.name = n) with
  | some t => t.dependency
  | none => none

/-- The DFS of `has_cycle` (`src/src/simulator.cpp` lines 426-448)
specialised to the single-dependency graph: follow the dependency chain,
reporting a cycle when it returns to a name already on the recursion
stack.  The chain from any start visits at most one new task per step, so
`tasks.length + 1` steps of fuel make the recursion total. -/
def chain_cycle (tasks : List TaskV) : Nat → List String → String → Bool
  | 0, _, _ => false
  | fuel + 1, stack, n =>
    match dep_of tasks n with
    | none => false
    | some d => if stack.contains d then true else chain_cycle tasks fuel (d :: stack) d

/-- `validate_task_dependencies` (`src/src/simulator.cpp` lines 450-482):
first every task's dependency must name an existing task (else it throws,
error kind `ValidationError`); only then does the cycle DFS run (throwing
the same kind on a circular dependency). -/
def validate_task_dependencies (tasks : List TaskV) : Except SimError Unit :=
  let task_names := tasks.map (fun t => t.name)
  if tasks.any (fun t =>
      match t.dependency with
      | some d => !task_names.contains d
      | none => false) then
    .error .ValidationError
  else if tasks.any (fun t => chain_cycle tasks (tasks.length + 1) [t.name] t.name) then
    .error .ValidationError
  else
    .ok ()

/-- Extract the dependency index of an await action. -/
def await_of : Action → Option Nat
  | .await_dep d => some d
  | _ => none

/-- Example tasks exercising the dependency loop: task `exC` lives on
host 1 and depends on `exA` (host 0, positive network time) and `exB`
(host 1). -/
def exA : Task :=
  { name := "A", host := "h0", initial_sleep_time := 0, run_time := 0, ram := 0,
    network_time := 1, dependencies := [], dependency_indices := [], index := 0,
    host_index := 0 }

def exB : Task :=
  { name := "B", host := "h1", initial_sleep_time := 0, run_time := 0, ram := 0,
    network_time := 0, dependencies := [], dependency_indices := [], index := 1,
    host_index := 1 }

def exC : Task :=
  { name := "C", host := "h1", initial_sleep_time := 0, run_time := 0, ram := 0,
    network_time := 0, dependencies := ["A", "B"], dependency_indices := [0, 1],
    index := 2, host_index := 1 }

/-- A header row that duplicates a required column name: eight entries,
seven distinct names. -/
def dup_header : List String := "TASK_NAME" :: expected_headers

/-! Helper lemmas about the container drain loops. -/

theorem process_get_queue_level_le (q : List GetRequest) :
    ∀ level, (process_get_queue level q).1 ≤ level := by
  induction q with
  | nil => intro level; simp [process_get_queue]
  | cons req rest ih =>
    intro level
    by_cases ha : req.aborted
    · simpa [process_get_queue, ha] using ih level
    · by_cases hs : req.amount ≤ level
      · have := ih (level - req.amount)
        simp only [process_get_queue, ha, hs, if_true, if_false, Bool.false_eq_true]
        exact le_trans this (Nat.sub_le _ _)
      · simp [process_get_queue, ha, hs]

theorem process_put_queue_level_le (cap : Nat) (q : List PutRequest) :
    ∀ level, level ≤ cap → (process_put_queue cap level q).1 ≤ cap := by
  induction q with
  | nil => intro level h; simpa [process_put_queue] using h
  | cons req rest ih =>
    intro level h
    by_cases ha : req.aborted
    · simpa [process_put_queue, ha] using ih level h
    · by_cases hs : level + req.amount ≤ cap
      · have := ih (level + req.amount) hs
        simpa [process_put_queue, ha, hs] using this
      · simpa [process_put_queue, ha, hs] using h

theorem Container.apply_inv (c : Container) (op : ContainerOp) (hc : c.inv) :
    (c.apply op).inv ∧ (c.apply op).capacity = c.capacity := by
  cases op with
  | get n =>
    by_cases hcap : n > c.capacity
    · have heq : c.apply (ContainerOp.get n) = c := by
        simp [Container.apply, Container.get, hcap]
      rw [heq]; exact ⟨hc, rfl⟩
    · by_cases hlev : c.level ≥ n
      · have heq : c.apply (ContainerOp.get n) =
            { c with level := (process_put_queue c.capacity (c.level - n) c.put_queue).1,
                     put_queue := (process_put_queue c.capacity (c.level - n) c.put_queue).2.2 } := by
          simp [Container.apply, Container.get, hcap, hlev]
        rw [heq]
        exact ⟨process_put_queue_level_le c.capacity c.put_queue (c.level - n)
                 (le_trans (Nat.sub_le _ _) hc), rfl⟩
      · have heq : c.apply (ContainerOp.get n) =
            { c with get_queue := c.get_queue ++ [⟨n, false⟩] } := by
          simp [Container.apply, Container.get, hcap, hlev]
        rw [heq]; exact ⟨hc, rfl⟩
  | put n =>
    by_cases hcap : n > c.capacity
    · have heq : c.apply (ContainerOp.put n) = c := by
        simp [Container.apply, Container.put, hcap]
      rw [heq]; exact ⟨hc, rfl⟩
    · by_cases hlev : c.level + n ≤ c.capacity
      · have heq : c.apply (ContainerOp.put n) =
            { c with level := (process_get_queue (c.level + n) c.get_queue).1,
                     get_queue := (process_get_queue (c.level + n) c.get_queue).2.2 } := by
          simp [Container.apply, Container.put, hcap, hlev]
        rw [heq]
        exact ⟨le_trans (process_get_queue_level_le c.get_queue (c.level + n)) hlev, rfl⟩
      · have heq : c.apply (ContainerOp.put n) =
            { c with put_queue := c.put_queue ++ [⟨n, false⟩] } := by
          simp [Container.apply, Container.put, hcap, hlev]
        rw [heq]; exact ⟨hc, rfl⟩

theorem Container.applyAll_inv (ops : List ContainerOp) :
    ∀ c : Container, c.inv →
      (c.applyAll ops).inv ∧ (c.applyAll ops).capacity = c.capacity := by
  induction ops with
  | nil => intro c hc; exact ⟨hc, rfl⟩
  | cons op rest ih =>
    intro c hc
    have h1 := Container.apply_inv c op hc
    have h2 := ih (c.apply op) h1.1
    simp only [Container.applyAll, List.foldl_cons] at h2 ⊢
    exact ⟨h2.1, h2.2.trans h1.2⟩

/-- C3: for every container and every sequence of `get`/`put` operations
(queue draining included), `0 ≤ level ≤ capacity` holds at every instant
(every operation sequence, hence every prefix of one, ends in a state
satisfying the invariant, with the capacity unchanged); `get n` leaves
the level untouched unless `level ≥ n`, `put n` leaves it untouched
unless `level + n ≤ capacity`, and a request with `n > capacity` is
rejected with `InvalidAmount` without changing the level. -/
theorem container_level_invariant (c : Container) (hc : c.inv) :
    (∀ ops : List ContainerOp,
        (c.applyAll ops).inv ∧ (c.applyAll ops).capacity = c.capacity) ∧
    (∀ n : Nat, c.level < n → (c.apply (ContainerOp.get n)).level = c.level) ∧
    (∀ n : Nat, c.capacity < c.level + n → (c.apply (ContainerOp.put n)).level = c.level) ∧
    (∀ n : Nat, c.capacity < n →
        c.get n = Except.error SimError.InvalidAmount ∧
        c.put n = Except.error SimError.InvalidAmount ∧
        (c.apply (ContainerOp.get n)).level = c.level ∧
        (c.apply (ContainerOp.put n)).level = c.level) := by
  refine ⟨fun ops => Container.applyAll_inv ops c hc, ?_, ?_, ?_⟩
  · intro n hlt
    by_cases hcap : n > c.capacity
    · simp [Container.apply, Container.get, hcap]
    · have hlev : ¬ c.level ≥ n := by omega
      simp [Container.apply, Container.get, hcap, hlev]
  · intro n hover
    by_cases hcap : n > c.capacity
    · simp [Container.apply, Container.put, hcap]
    · have hlev : ¬ c.level + n ≤ c.capacity := by omega
      simp [Container.apply, Container.put, hcap, hlev]
  · intro n hcap
    have hg : c.get n = Except.error SimError.InvalidAmount := by
      simp [Container.get, hcap]
    have hp : c.put n = Except.error SimError.InvalidAmount := by
      simp [Container.put, hcap]
    refine ⟨hg, hp, ?_, ?_⟩
    · simp [Container.apply, hg]
    · simp [Container.apply, hp]

/-- Witness for `container_level_invariant` at a concrete container. -/
theorem container_level_invariant_witness :
    (Container.mk 10 5 [] []).inv ∧
    ((Container.mk 10 5 [] []).applyAll
        [ContainerOp.get 3, ContainerOp.put 2, ContainerOp.get 20]).inv :=
  ⟨by decide,
   ((container_level_invariant (Container.mk 10 5 [] []) (by decide)).1
      [ContainerOp.get 3, ContainerOp.put 2, ContainerOp.get 20]).1⟩

theorem process_get_queue_spec (q : List GetRequest) :
    ∀ level, ∃ pre suf,
      q = pre ++ suf ∧
      process_get_queue level q =
        (level - ((pre.filter (fun r => !r.aborted)).map (fun r => r.amount)).sum,
         pre.filter (fun r => !r.aborted), suf) ∧
      (∀ r rest2, suf = r :: rest2 →
        r.aborted = false ∧ (process_get_queue level q).1 < r.amount) := by
  induction q with
  | nil =>
    intro level
    exact ⟨[], [], rfl, by simp [process_get_queue], by intro r rest2 h; cases h⟩
  | cons req rest ih =>
    intro level
    by_cases ha : req.aborted
    · obtain ⟨pre, suf, hq, hres, hblock⟩ := ih level
      refine ⟨req :: pre, suf, by simp [hq], ?_, ?_⟩
      · simpa [process_get_queue, ha] using hres
      · intro r rest2 h
        have := hblock r rest2 h
        simpa [process_get_queue, ha] using this
    · by_cases hs : req.amount ≤ level
      · obtain ⟨pre, suf, hq, hres, hblock⟩ := ih (level - req.amount)
        refine ⟨req :: pre, suf, by simp [hq], ?_, ?_⟩
        · have hsum : level - (req.amount + ((pre.filter (fun r => !r.aborted)).map (fun r => r.amount)).sum)
              = level - req.amount - ((pre.filter (fun r => !r.aborted)).map (fun r => r.amount)).sum := by
            omega
          simp [process_get_queue, ha, hs, hres, hsum]
        · intro r rest2 h
          have := hblock r rest2 h
          simpa [process_get_queue, ha, hs] using this
      · refine ⟨[], req :: rest, rfl, by simp [process_get_queue, ha, hs], ?_⟩
        intro r rest2 h
        cases h
        have hres : (process_get_queue level (req :: rest)).1 = level := by
          simp [process_get_queue, ha, hs]
        exact ⟨by simpa using ha, by omega⟩

theorem process_put_queue_spec (cap : Nat) (q : List PutRequest) :
    ∀ level, ∃ pre suf,
      q = pre ++ suf ∧
      process_put_queue cap level q =
        (level + ((pre.filter (fun r => !r.aborted)).map (fun r => r.amount)).sum,
         pre.filter (fun r => !r.aborted), suf) ∧
      (∀ r rest2, suf = r :: rest2 →
        r.aborted = false ∧ cap < (process_put_queue cap level q).1 + r.amount) := by
  induction q with
  | nil =>
    intro level
    exact ⟨[], [], rfl, by simp [process_put_queue], by intro r rest2 h; cases h⟩
  | cons req rest ih =>
    intro level
    by_cases ha : req.aborted
    · obtain ⟨pre, suf, hq, hres, hblock⟩ := ih level
      refine ⟨req :: pre, suf, by simp [hq], ?_, ?_⟩
      · simpa [process_put_queue, ha] using hres
      · intro r rest2 h
        have := hblock r rest2 h
        simpa [process_put_queue, ha] using this
    · by_cases hs : level + req.amount ≤ cap
      · obtain ⟨pre, suf, hq, hres, hblock⟩ := ih (level + req.amount)
        refine ⟨req :: pre, suf, by simp [hq], ?_, ?_⟩
        · have hsum : level + (req.amount + ((pre.filter (fun r => !r.aborted)).map (fun r => r.amount)).sum)
              = level + req.amount + ((pre.filter (fun r => !r.aborted)).map (fun r => r.amount)).sum := by
            omega
          simp [process_put_queue, ha, hs, hres, hsum]
        · intro r rest2 h
          have := hblock r rest2 h
          simpa [process_put_queue, ha, hs] using this
      · refine ⟨[], req :: rest, rfl, by simp [process_put_queue, ha, hs], ?_⟩
        intro r rest2 h
        cases h
        have hres : (process_put_queue cap level (req :: rest)).1 = level := by
          simp [process_put_queue, ha, hs]
        exact ⟨by simpa using ha, by omega⟩

/-- C4: draining either waiter queue of a container is FIFO with aborted
entries skipped in place and head-of-line blocking.  The processed
portion `pre` of the queue is consumed in order: its non-aborted entries
are exactly the granted ones (in queue order, each moving the level by
its amount) and its aborted entries are discarded without a grant; the
untouched remainder `suf` is returned as the new queue, and when it is
non-empty its head is a non-aborted waiter that cannot be satisfied at
the resulting level — every later waiter stays queued unexamined, even
one whose amount could be satisfied. -/
theorem queue_drain_head_of_line (cap level : Nat)
    (gq : List GetRequest) (pq : List PutRequest) :
    (∃ pre suf,
      gq = pre ++ suf ∧
      process_get_queue level gq =
        (level - ((pre.filter (fun r => !r.aborted)).map (fun r => r.amount)).sum,
         pre.filter (fun r => !r.aborted), suf) ∧
      (∀ r rest2, suf = r :: rest2 →
        r.aborted = false ∧ (process_get_queue level gq).1 < r.amount)) ∧
    (∃ pre suf,
      pq = pre ++ suf ∧
      process_put_queue cap level pq =
        (level + ((pre.filter (fun r => !r.aborted)).map (fun r => r.amount)).sum,
         pre.filter (fun r => !r.aborted), suf) ∧
      (∀ r rest2, suf = r :: rest2 →
        r.aborted = false ∧ cap < (process_put_queue cap level pq).1 + r.amount)) :=
  ⟨process_get_queue_spec gq level, process_put_queue_spec cap pq level⟩

theorem dep_transfer_actions_no_await (task dep : Task) :
    (dep_transfer_actions task dep).filterMap await_of = [] := by
  unfold dep_transfer_actions
  split
  · split <;> simp [await_of]
  · simp

theorem dep_transfer_actions_no_trigger (task dep : Task) (a : Action)
    (ha : a ∈ dep_transfer_actions task dep) : ∀ j, a ≠ Action.trigger j := by
  intro j
  unfold dep_transfer_actions at ha
  split at ha
  · split at ha
    · simp only [List.mem_cons, List.not_mem_nil, or_false] at ha
      rcases ha with h | h | h <;> simp [h]
    · cases ha
  · cases ha

theorem dep_phase_no_trigger (task : Task) (tasks : List Task) :
    ∀ (ds : List Nat) (a : Action), a ∈ dep_phase task tasks ds →
      ∀ j, a ≠ Action.trigger j := by
  intro ds
  induction ds with
  | nil => intro a ha; simp [dep_phase] at ha
  | cons d rest ih =>
    intro a ha j
    simp only [dep_phase, List.mem_cons, List.mem_append] at ha
    rcases ha with (h | h) | h
    · simp [h]
    · exact dep_transfer_actions_no_trigger task _ a h j
    · exact ih a h j

/-- C1 counterexample: for the two-dependency task `exC`, the dependency
loop of `task_process` does not first await every dependency and only
then transfer — the network transfer for the cross-host dependency `exA`
is performed before the completion of `exB` is awaited, so the code's
action order differs from the barrier-then-transfers order the claim
states. -/
theorem dep_barrier_counterexample :
    exC.dependency_indices.length > 1 ∧
    dep_phase exC [exA, exB, exC] exC.dependency_indices ≠
      spec_dep_phase exC [exA, exB, exC] exC.dependency_indices := by
  constructor
  · decide
  · decide

/-- C1 amended: for every task, `task_process` handles dependencies
strictly in declaration order, but interleaved per dependency: for each
dependency index `d` (in order) it awaits `d`'s completion signal and
then immediately performs `d`'s network transfer (when `d` is cross-host
with positive network time) before touching the next dependency; the
completion signals are thus awaited in declaration order and the
transfers are sequential in dependency order, but a transfer for an
earlier dependency is performed before a later dependency's completion
is awaited, not after all dependencies have completed. -/
theorem dep_phase_interleaved (task : Task) (tasks : List Task) (ds : List Nat) :
    dep_phase task tasks ds
      = ds.flatMap (fun d =>
          Action.await_dep d :: dep_transfer_actions task (tasks.getD d default)) ∧
    (dep_phase task tasks ds).filterMap await_of = ds := by
  induction ds with
  | nil => exact ⟨rfl, rfl⟩
  | cons d rest ih =>
    constructor
    · simp only [dep_phase, List.flatMap_cons, List.cons_append, ih.1]
    · simp only [dep_phase, List.filterMap_cons, await_of, List.filterMap_append,
        dep_transfer_actions_no_await, List.nil_append, ih.2, List.singleton_append]

/-- C6: every `task_process` trace ends with the CPU release, the RAM
put, and the trigger of the task's own completion signal, in that order,
and triggers no completion signal anywhere earlier: the completion signal
fires exactly once, by the task's own process, after its last release. -/
theorem completion_triggered_once_last (task : Task) (i : Nat) (tasks : List Task) :
    ∃ pre, task_process_trace task i tasks
        = pre ++ [Action.cpu_release, Action.ram_put task.ram, Action.trigger i] ∧
      ∀ a ∈ pre, ∀ j, a ≠ Action.trigger j := by
  refine ⟨(if task.initial_sleep_time > 0 then [Action.timeout task.initial_sleep_time] else [])
      ++ dep_phase task tasks task.dependency_indices
      ++ [Action.ram_get task.ram, Action.cpu_request, Action.timeout task.run_time], ?_, ?_⟩
  · simp [task_process_trace]
  · intro a ha j
    simp only [List.mem_append, List.mem_cons, List.not_mem_nil, or_false] at ha
    rcases ha with (h | h) | h | h | h
    · split at h
      · simp only [List.mem_cons, List.not_mem_nil, or_false] at h
        simp [h]
      · cases h
    · exact dep_phase_no_trigger task tasks _ a h j
    · simp [h]
    · simp [h]
    · simp [h]

/-- C2: a task whose `ram` exceeds its host's RAM capacity makes
`container::get` throw `InvalidAmount` instead of enqueueing (the state
is not consulted and no waiter is added), and in the `task_process` trace
the RAM acquisition strictly precedes the completion trigger, so the
process cannot have completed when the exception surfaces; by the spec's
propagation rule the exception reaches the caller of `run`, which
therefore does not return successfully. -/
theorem ram_exceeds_capacity_invalid_amount (name : String) (cores ramCap : Int)
    (task : Task) (hcap : 0 ≤ ramCap) (hover : ramCap < task.ram) :
    (Host.init name cores ramCap).ram.get task.ram.toNat
        = Except.error SimError.InvalidAmount ∧
    ∀ tasks i, ∃ pre suf,
      task_process_trace task i tasks = pre ++ Action.ram_get task.ram :: suf ∧
      ∀ a ∈ pre, ∀ j, a ≠ Action.trigger j := by
  constructor
  · have hlt : (Host.init name cores ramCap).ram.capacity < task.ram.toNat := by
      simp only [Host.init]
      omega
    simp [Container.get, hlt]
  · intro tasks i
    refine ⟨(if task.initial_sleep_time > 0 then [Action.timeout task.initial_sleep_time] else [])
        ++ dep_phase task tasks task.dependency_indices,
      [Action.cpu_request, Action.timeout task.run_time,
       Action.cpu_release, Action.ram_put task.ram, Action.trigger i], ?_, ?_⟩
    · simp [task_process_trace]
    · intro a ha j
      simp only [List.mem_append] at ha
      rcases ha with h | h
      · split at h
        · simp only [List.mem_singleton] at h
          simp [h]
        · cases h
      · exact dep_phase_no_trigger task tasks _ a h j

/-- Witness for `ram_exceeds_capacity_invalid_amount`: a host with RAM
capacity 10 and a task requesting 11. -/
theorem ram_exceeds_capacity_witness :
    (0 : Int) ≤ 10 ∧ (10 : Int) < (11 : Int) ∧
    (Host.init "H" 1 10).ram.get ((11 : Int)).toNat
        = Except.error SimError.InvalidAmount :=
  ⟨by decide, by decide,
   (ram_exceeds_capacity_invalid_amount "H" 1 10 { exA with ram := 11 }
      (by decide) (by decide)).1⟩

theorem findIdx?_none_iff_not_mem (host_ids : List String) (x : String) :
    host_ids.findIdx? (fun h => h = x) = none ↔ x ∉ host_ids := by
  rw [List.findIdx?_eq_none_iff]
  constructor
  · intro h hx
    have := h x hx
    simp at this
  · intro h y hy
    by_contra hb
    have hyx : y = x := by simpa using hb
    exact h (hyx ▸ hy)

/-- C7: the simulator constructor accepts a task list exactly when every
task's `host` names one of the constructed hosts, and the first task
whose host does not resolve makes it throw `UnknownHost`. -/
theorem constructor_rejects_unknown_host (host_ids : List String) (tasks : List Task) :
    ((∃ ts, resolve_task_hosts host_ids tasks = Except.ok ts) ↔
        ∀ t ∈ tasks, t.host ∈ host_ids) ∧
    ((¬ ∀ t ∈ tasks, t.host ∈ host_ids) →
        resolve_task_hosts host_ids tasks = Except.error SimError.UnknownHost) := by
  induction tasks with
  | nil =>
    constructor
    · constructor
      · intro _ t ht; cases ht
      · intro _; exact ⟨[], rfl⟩
    · intro h
      exact absurd (by intro t ht; cases ht) h
  | cons t rest ih =>
    cases hfind : host_ids.findIdx? (fun h => h = t.host) with
    | none =>
      have hnot : t.host ∉ host_ids := (findIdx?_none_iff_not_mem host_ids t.host).1 hfind
      have hres : resolve_task_hosts host_ids (t :: rest)
          = Except.error SimError.UnknownHost := by
        simp [resolve_task_hosts, hfind]
      constructor
      · constructor
        · rintro ⟨ts, hts⟩
          rw [hres] at hts; cases hts
        · intro hall
          exact absurd (hall t (List.mem_cons_self t rest)) hnot
      · intro _; exact hres
    | some i =>
      have hmem : t.host ∈ host_ids := by
        by_contra hn
        rw [(findIdx?_none_iff_not_mem host_ids t.host).2 hn] at hfind
        cases hfind
      have hres : resolve_task_hosts host_ids (t :: rest)
          = (resolve_task_hosts host_ids rest).map
              (fun ts => { t with host_index := i } :: ts) := by
        simp [resolve_task_hosts, hfind]
      constructor
      · constructor
        · rintro ⟨ts, hts⟩ s hs
          rw [hres] at hts
          cases hrest : resolve_task_hosts host_ids rest with
          | ok ts2 =>
            rcases List.mem_cons.1 hs with h | h
            · exact h ▸ hmem
            · exact (ih.1.1 ⟨ts2, hrest⟩) s h
          | error e =>
            rw [hrest] at hts; cases hts
        · intro hall
          obtain ⟨ts2, hts2⟩ := ih.1.2 (fun s hs => hall s (List.mem_cons_of_mem t hs))
          refine ⟨{ t with host_index := i } :: ts2, ?_⟩
          rw [hres, hts2]; rfl
      · intro hnall
        have hnrest : ¬ ∀ s ∈ rest, s.host ∈ host_ids := by
          intro hr
          apply hnall
          intro s hs
          rcases List.mem_cons.1 hs with h | h
          · exact h ▸ hmem
          · exact hr s h
        rw [hres, ih.2 hnrest]; rfl

/-- Witness for `constructor_rejects_unknown_host`: a task whose host is
not among the constructed hosts is rejected. -/
theorem constructor_rejects_unknown_host_witness :
    resolve_task_hosts ["h0", "h1"] [exA, { exB with host := "nope" }]
        = Except.error SimError.UnknownHost :=
  (constructor_rejects_unknown_host ["h0", "h1"] [exA, { exB with host := "nope" }]).2
    (by decide)

theorem foldl_add_eq_sum {α : Type} (f : α → Int) (l : List α) :
    ∀ a : Int, l.foldl (fun acc x => acc + f x) a = a + (l.map f).sum := by
  induction l with
  | nil => intro a; simp
  | cons x xs ih =>
    intro a
    simp only [List.foldl_cons, List.map_cons, List.sum_cons, ih, add_assoc]

/-- C8: the statistics `TaskSimulator::run` computes after the event
queue drains are exactly: `total_cpu_work` the sum of the tasks'
`run_time`, `total_cpu_cores` the sum of the hosts' core counts,
`total_cpu_time_available` their product with the clock's final time,
`idle_time` the difference between available and work, and the CPU
utilization the ratio `work / available` (zero when the available time is
zero), which the code scales by 100 to report a percentage. -/
theorem run_statistics_formulas (tasks : List Task) (hosts : List Host) (sim_time : Int) :
    (run_stats tasks hosts sim_time).total_cpu_work
        = (tasks.map (fun t => t.run_time)).sum ∧
    (run_stats tasks hosts sim_time).total_cpu_cores
        = (hosts.map (fun h => h.cpu_cores)).sum ∧
    (run_stats tasks hosts sim_time).total_cpu_time_available
        = (hosts.map (fun h => h.cpu_cores)).sum * sim_time ∧
    (run_stats tasks hosts sim_time).idle_time
        = (run_stats tasks hosts sim_time).total_cpu_time_available
            - (run_stats tasks hosts sim_time).total_cpu_work ∧
    ((run_stats tasks hosts sim_time).total_cpu_time_available = 0 →
        (run_stats tasks hosts sim_time).cpu_utilization = 0) ∧
    (0 < (run_stats tasks hosts sim_time).total_cpu_time_available →
        (run_stats tasks hosts sim_time).cpu_utilization
          = ((run_stats tasks hosts sim_time).total_cpu_work : ℚ)
              / ((run_stats tasks hosts sim_time).total_cpu_time_available : ℚ) * 100) := by
  have hwork : (run_stats tasks hosts sim_time).total_cpu_work
      = (tasks.map (fun t => t.run_time)).sum := by
    simp [run_stats, foldl_add_eq_sum]
  have hcores : (run_stats tasks hosts sim_time).total_cpu_cores
      = (hosts.map (fun h => h.cpu_cores)).sum := by
    simp [run_stats, foldl_add_eq_sum]
  refine ⟨hwork, hcores, ?_, ?_, ?_, ?_⟩
  · simp [run_stats, foldl_add_eq_sum]
  · simp [run_stats]
  · intro h0
    have : ¬ 0 < (hosts.foldl (fun acc h => acc + h.cpu_cores) 0) * sim_time := by
      simp only [run_stats] at h0
      omega
    simp [run_stats, this]
  · intro hpos
    have hpos2 : 0 < (hosts.foldl (fun acc h => acc + h.cpu_cores) 0) * sim_time := by
      simpa [run_stats] using hpos
    simp [run_stats, hpos2]

/-- Witness for `run_statistics_formulas` at a concrete run: one host
with two cores, one task with `run_time = 0`, final time 0: the available
time is zero and the utilization is reported as zero. -/
theorem run_statistics_formulas_witness :
    (run_stats [exA] [Host.init "h0" 2 10] 0).total_cpu_time_available = 0 ∧
    (run_stats [exA] [Host.init "h0" 2 10] 0).cpu_utilization = 0 :=
  ⟨by decide,
   (run_statistics_formulas [exA] [Host.init "h0" 2 10] 0).2.2.2.2.1 (by decide)⟩

/-- C9 counterexample: the header row `dup_header` contains the column
name TASK_NAME twice, yet the header validation of `parse_tasks_csv`
accepts it, because the comparison pours the names into a set — so a
duplicated column name does not make parsing fail with `ConfigError`. -/
theorem csv_duplicate_header_accepted :
    (¬ dup_header.Nodup) ∧ check_header dup_header = Except.ok () := by
  constructor
  · decide
  · rfl

/-- C9 amended: the header check compares the header's set of column
names with the set of the seven required names: it succeeds exactly when
the two name sets are equal — so a missing required column, or an extra
unknown column, fails with `ConfigError`, column order is free and a
header with exactly the seven required names (each once) is accepted, but
a header that merely duplicates required names is accepted as well. -/
theorem csv_header_set_equality (headers : List String) :
    (check_header headers = Except.ok () ↔
      ∀ h : String, h ∈ headers ↔ h ∈ expected_headers) ∧
    ((¬ ∀ h : String, h ∈ headers ↔ h ∈ expected_headers) →
      check_header headers = Except.error SimError.ConfigError) := by
  have hiff : header_set_eq headers = true ↔
      ∀ h : String, h ∈ headers ↔ h ∈ expected_headers := by
    constructor
    · intro hs h
      simp only [header_set_eq, Bool.and_eq_true, List.all_eq_true] at hs
      constructor
      · intro hh
        simpa using hs.1 h hh
      · intro hh
        simpa using hs.2 h hh
    · intro hall
      simp only [header_set_eq, Bool.and_eq_true, List.all_eq_true]
      constructor
      · intro h hh
        simpa using (hall h).1 hh
      · intro h hh
        simpa using (hall h).2 hh
  unfold check_header
  by_cases hs : header_set_eq headers = true
  · rw [if_pos hs]
    exact ⟨⟨fun _ => hiff.1 hs, fun _ => rfl⟩, fun hn => absurd (hiff.1 hs) hn⟩
  · rw [if_neg hs]
    constructor
    · constructor
      · intro h; cases h
      · intro hall; exact absurd (hiff.2 hall) hs
    · intro _; rfl

/-- Witness for `csv_header_set_equality`: a header missing six of the
required columns is rejected with `ConfigError`. -/
theorem csv_header_set_equality_witness :
    check_header ["TASK_NAME"] = Except.error SimError.ConfigError :=
  (csv_header_set_equality ["TASK_NAME"]).2 (by
    intro hall
    have := (hall "TASK_HOST").2 (by decide)
    simp at this)

theorem lookup_none_iff_keys (d : String) :
    ∀ l : List (String × Nat), l.lookup d = none ↔ ∀ p ∈ l, p.1 ≠ d := by
  intro l
  induction l with
  | nil => simp [List.lookup]
  | cons p rest ih =>
    obtain ⟨k, v⟩ := p
    by_cases hp : k = d
    · simp [List.lookup, hp]
    · have hdk : (d == k) = false := by
        rw [beq_eq_false_iff_ne]
        exact fun h => hp h.symm
      simp [List.lookup, hdk, ih, hp]

theorem task_name_to_index_eq (tasks : List Task) :
    task_name_to_index tasks = (tasks.map (fun t => (t.name, t.index))).reverse := by
  have general : ∀ (l : List Task) (acc : List (String × Nat)),
      l.foldl (fun m t => (t.name, t.index) :: m) acc
        = (l.map (fun t => (t.name, t.index))).reverse ++ acc := by
    intro l
    induction l with
    | nil => intro acc; simp
    | cons t rest ih =>
      intro acc
      simp [List.foldl_cons, ih, List.reverse_cons, List.append_assoc]
  simpa [task_name_to_index] using general tasks []

theorem task_name_lookup_none (tasks : List Task) (d : String) :
    (task_name_to_index tasks).lookup d = none ↔ d ∉ tasks.map (fun t => t.name) := by
  rw [task_name_to_index_eq, lookup_none_iff_keys]
  constructor
  · intro h hd
    simp only [List.mem_map] at hd
    obtain ⟨t, ht, hname⟩ := hd
    refine h (t.name, t.index) ?_ hname
    rw [List.mem_reverse, List.mem_map]
    exact ⟨t, ht, rfl⟩
  · intro h p hp
    simp only [List.mem_reverse, List.mem_map] at hp
    obtain ⟨t, ht, rfl⟩ := hp
    intro hname
    apply h
    rw [List.mem_map]
    exact ⟨t, ht, hname⟩

theorem filterMap_filter_isSome {α β : Type} (f : α → Option β) (l : List α) :
    (l.filter (fun x => (f x).isSome)).filterMap f = l.filterMap f := by
  induction l with
  | nil => rfl
  | cons x xs ih =>
    cases hfx : f x with
    | none => simp [List.filter_cons, List.filterMap_cons, hfx, ih]
    | some b => simp [List.filter_cons, List.filterMap_cons, hfx, ih]

/-- C10: when the `TaskSimulator` constructor resolves dependency names
to indices, a name that matches no known task is silently skipped: the
resolved index list is the same as if the unknown names had been removed
from the dependency list, and resolution is total (it never throws); it
is the external `validate_task_dependencies` pass that rejects an
undefined dependency, with a `ValidationError`. -/
theorem unknown_dependency_silently_skipped (tasks : List Task) (deps : List String) :
    (resolve_dependency_indices (task_name_to_index tasks) deps
      = resolve_dependency_indices (task_name_to_index tasks)
          (deps.filter (fun d => (tasks.map (fun t => t.name)).contains d))) ∧
    (∀ (vts : List TaskV) (t : TaskV) (d : String),
      t ∈ vts → t.dependency = some d → d ∉ vts.map (fun s => s.name) →
      validate_task_dependencies vts = Except.error SimError.ValidationError) := by
  constructor
  · have hpred : ∀ d ∈ deps, ((task_name_to_index tasks).lookup d).isSome
        = (tasks.map (fun t => t.name)).contains d := by
      intro d _
      by_cases hd : d ∈ tasks.map (fun t => t.name)
      · have hne : (task_name_to_index tasks).lookup d ≠ none := by
          rw [Ne, task_name_lookup_none]
          simpa using hd
        cases hl : (task_name_to_index tasks).lookup d with
        | none => exact absurd hl hne
        | some v =>
          simp only [Option.isSome_some]
          symm
          simpa using hd
      · rw [(task_name_lookup_none tasks d).2 hd]
        simp only [Option.isSome_none]
        symm
        simpa using hd
    unfold resolve_dependency_indices
    rw [← filterMap_filter_isSome (fun d => (task_name_to_index tasks).lookup d) deps]
    rw [List.filter_congr hpred]
  · intro vts t d ht hdep hnot
    have hany : vts.any (fun s =>
        match s.dependency with
        | some d2 => !((vts.map (fun u => u.name)).contains d2)
        | none => false) = true := by
      rw [List.any_eq_true]
      refine ⟨t, ht, ?_⟩
      rw [hdep]
      simp only [Bool.not_eq_true']
      simpa using hnot
    simp only [validate_task_dependencies]
    rw [if_pos hany]

/-- Witness for `unknown_dependency_silently_skipped`: a task whose
single dependency names no existing task is rejected by the external
validation pass. -/
theorem unknown_dependency_silently_skipped_witness :
    validate_task_dependencies [TaskV.mk "X" (some "ghost")]
        = Except.error SimError.ValidationError :=
  (unknown_dependency_silently_skipped [] []).2
    [TaskV.mk "X" (some "ghost")] (TaskV.mk "X" (some "ghost")) "ghost"
    (by decide) rfl (by decide)

end TaskSim
